import Mathlib

/-!
Verification of the sigma-protocol composition engine
(`compiler/CompositionProofs.py`) against its specification.

The Python classes are shallowly embedded: big numbers (`petlib` `Bn`)
become `Int`, dictionaries keyed by `Secret` objects become association
lists keyed by `Nat` identities (Python `Secret` equality is referential),
random draws become explicit parameters, and raised exceptions become
`Except` values.  Leaf proofs are abstract: the engine only consumes their
interface, so a leaf is represented by the data the composite nodes read
from it (its secret bag, its `get_prover` outcome, its simulator, its
`recompute_commitment` function).
-/

namespace ZkComp

/-- Modelled from the spec: `CHAL_LENGTH` lives in the missing
`Abstractions` module; the spec fixes the challenge bit length `k` as a
library parameter with reference value 128. -/
def CHAL_LENGTH : Nat := 128

/-- Modelled from the spec: `add_Bn_array` lives in the missing
`Abstractions` module; per the spec the residual computation reduces the
sum of the array modulo the modulus, so `add_Bn_array` is the sum of the
array reduced modulo `modulus`. -/
def add_Bn_array (arr : List Int) (modulus : Int) : Int :=
  arr.sum % modulus

/-- Translation of `find_residual_chal` (CompositionProofs.py:154-166):
append the negated global challenge to the array, reduce the sum modulo
`2 ^ chal_length` and return the opposite. -/
def find_residual_chal (arr : List Int) (challenge : Int) (chal_length : Nat) : Int :=
  -(add_Bn_array (arr ++ [-challenge]) ((2 : Int) ^ chal_length))

/-- Simulation transcript as built by `simulate_proof`
(commitment, challenge, responses, precommitment). -/
structure SimulationTranscript (C R P : Type) where
  commitment : C
  challenge : Int
  responses : R
  precommitment : P
deriving DecidableEq

instance {C R P : Type} [Inhabited C] [Inhabited R] [Inhabited P] :
    Inhabited (SimulationTranscript C R P) :=
  ⟨⟨default, 0, default, default⟩⟩

/-- State of an `OrProver` (CompositionProofs.py:318-338): the index of
the legitimate subprover, the number of subproofs of the mother proof, the
stored simulation transcripts of the other children (in child order,
skipping the legitimate index), and the response function of the
legitimate subprover. -/
structure OrProverRep (C R P : Type) where
  true_prover_idx : Nat
  numSub : Nat
  simulations : List (SimulationTranscript C R P)
  subRespond : Int → R

/-- Translation of `OrProver.compute_response` (CompositionProofs.py:376-402):
compute the residual challenge from the stored simulation challenges, then
walk the children in order, inserting the residual challenge and the real
response of the subprover at the legitimate index and the stored simulated
challenge and responses elsewhere (with the index shift
`index1 = index - 1` past the legitimate index). -/
def orComputeResponse {C R P : Type} [Inhabited C] [Inhabited R] [Inhabited P]
    (pr : OrProverRep C R P) (challenge : Int) : List Int × List R :=
  let residual_chal :=
    find_residual_chal (pr.simulations.map (·.challenge)) challenge CHAL_LENGTH
  ((List.range pr.numSub).map fun index =>
      if index = pr.true_prover_idx then residual_chal
      else if pr.true_prover_idx < index then
        (pr.simulations.getD (index - 1) default).challenge
      else (pr.simulations.getD index default).challenge,
   (List.range pr.numSub).map fun index =>
      if index = pr.true_prover_idx then pr.subRespond residual_chal
      else if pr.true_prover_idx < index then
        (pr.simulations.getD (index - 1) default).responses
      else (pr.simulations.getD index default).responses)

/-! ### Arithmetic helper lemmas -/

theorem find_residual_chal_eq (arr : List Int) (c : Int) (k : Nat) :
    find_residual_chal arr c k = -((arr.sum - c) % (2 : Int) ^ k) := by
  simp [find_residual_chal, add_Bn_array, sub_eq_add_neg]

theorem add_residual_emod (S c m : Int) :
    (S + -((S - c) % m)) % m = c % m := by
  rw [Int.emod_eq_emod_iff_emod_sub_eq_zero]
  have h1 : S + -((S - c) % m) - c = m * ((S - c) / m) := by
    rw [Int.emod_def]; ring
  rw [h1]
  exact Int.mul_emod_right m _

theorem range_map_getD {α β : Type} (g : α → β) (d : α) :
    ∀ l : List α,
      (List.range l.length).map (fun i => g (l.getD i d)) = l.map g := by
  intro l
  induction l with
  | nil => simp
  | cons a l ih =>
    rw [List.length_cons, List.range_succ_eq_map, List.map_cons, List.map_map]
    have hcomp : ((fun i => g ((a :: l).getD i d)) ∘ Nat.succ) =
        fun i => g (l.getD i d) := by
      funext i
      simp only [Function.comp_apply, List.getD_cons_succ]
    rw [hcomp, ih, List.getD_cons_zero, List.map_cons]

/-- The loop of `compute_response` builds exactly the list of simulated
values with one extra element inserted at the legitimate index. -/
theorem range_map_insert {α β : Type} (g : α → β) (r : β) (d : α) :
    ∀ (t : Nat) (l : List α) (n : Nat), t < n → l.length + 1 = n →
      (List.range n).map
          (fun i => if i = t then r
            else if t < i then g (l.getD (i - 1) d) else g (l.getD i d)) =
        (l.map g).take t ++ r :: (l.map g).drop t := by
  intro t
  induction t with
  | zero =>
    intro l n ht hn
    subst hn
    rw [List.range_succ_eq_map, List.map_cons, List.map_map]
    have hcomp : ((fun i => if i = 0 then r
        else if 0 < i then g (l.getD (i - 1) d) else g (l.getD i d)) ∘ Nat.succ) =
        fun i => g (l.getD i d) := by
      funext i
      simp only [Function.comp_apply]
      rw [if_neg (Nat.succ_ne_zero i), if_pos (Nat.succ_pos i), Nat.succ_sub_one]
    rw [hcomp, range_map_getD]
    simp
  | succ t ih =>
    intro l n ht hn
    cases l with
    | nil => simp at hn; omega
    | cons a l' =>
      subst hn
      rw [List.length_cons] at ht
      rw [List.range_succ_eq_map, List.map_cons, List.map_map, List.length_cons]
      have hcomp : ((fun i => if i = t + 1 then r
          else if t + 1 < i then g ((a :: l').getD (i - 1) d)
          else g ((a :: l').getD i d)) ∘ Nat.succ) =
          fun i => if i = t then r
            else if t < i then g (l'.getD (i - 1) d) else g (l'.getD i d) := by
        funext i
        simp only [Function.comp_apply]
        by_cases h1 : i = t
        · subst h1
          rw [if_pos rfl, if_pos rfl]
        · rw [if_neg (by omega), if_neg h1]
          by_cases h2 : t < i
          · rw [if_pos (by omega), if_pos h2]
            obtain ⟨j, rfl⟩ : ∃ j, i = j + 1 := ⟨i - 1, by omega⟩
            have hd : Nat.succ (j + 1) - 1 = j + 1 := by omega
            rw [hd, List.getD_cons_succ, Nat.add_sub_cancel]
          · rw [if_neg (by omega), if_neg h2, List.getD_cons_succ]
      rw [hcomp, ih l' (l'.length + 1) (by omega) rfl]
      rw [if_neg (by omega), if_neg (by omega), List.getD_cons_zero, List.map_cons,
        List.take_succ_cons, List.drop_succ_cons, List.cons_append]

/-- C1.  For every OR prover with chosen real child index `i*` and every
global challenge `c`, `OrProver.compute_response c` returns the pair of
the subchallenge list and the response list in child order: the
subchallenge list is the simulated subchallenges with the residual
`find_residual_chal` inserted at position `i*`, the response list is the
simulated responses with the real response inserted at position `i*`, and
the sum of all subchallenges is congruent to `c` modulo
`2 ^ CHAL_LENGTH`. -/
theorem orProver_compute_response_spec {C R P : Type}
    [Inhabited C] [Inhabited R] [Inhabited P]
    (pr : OrProverRep C R P) (c : Int)
    (hn : pr.simulations.length + 1 = pr.numSub)
    (ht : pr.true_prover_idx < pr.numSub) :
    (orComputeResponse pr c).1 =
        (pr.simulations.map (·.challenge)).take pr.true_prover_idx ++
          find_residual_chal (pr.simulations.map (·.challenge)) c CHAL_LENGTH ::
            (pr.simulations.map (·.challenge)).drop pr.true_prover_idx ∧
      (orComputeResponse pr c).2 =
        (pr.simulations.map (·.responses)).take pr.true_prover_idx ++
          pr.subRespond
              (find_residual_chal (pr.simulations.map (·.challenge)) c CHAL_LENGTH) ::
            (pr.simulations.map (·.responses)).drop pr.true_prover_idx ∧
      (orComputeResponse pr c).1.sum % (2 : Int) ^ CHAL_LENGTH =
        c % (2 : Int) ^ CHAL_LENGTH := by
  have h1 : (orComputeResponse pr c).1 =
      (pr.simulations.map (·.challenge)).take pr.true_prover_idx ++
        find_residual_chal (pr.simulations.map (·.challenge)) c CHAL_LENGTH ::
          (pr.simulations.map (·.challenge)).drop pr.true_prover_idx := by
    simpa [orComputeResponse] using
      range_map_insert (·.challenge)
        (find_residual_chal (pr.simulations.map (·.challenge)) c CHAL_LENGTH)
        default pr.true_prover_idx pr.simulations pr.numSub ht hn
  refine ⟨h1, ?_, ?_⟩
  · simpa [orComputeResponse] using
      range_map_insert (·.responses)
        (pr.subRespond
          (find_residual_chal (pr.simulations.map (·.challenge)) c CHAL_LENGTH))
        default pr.true_prover_idx pr.simulations pr.numSub ht hn
  · rw [h1, List.sum_append, List.sum_cons]
    have hsum2 : ((pr.simulations.map (·.challenge)).take pr.true_prover_idx).sum +
        ((pr.simulations.map (·.challenge)).drop pr.true_prover_idx).sum =
        (pr.simulations.map (·.challenge)).sum := by
      rw [← List.sum_append, List.take_append_drop]
    have h3 : ((pr.simulations.map (·.challenge)).take pr.true_prover_idx).sum +
        (find_residual_chal (pr.simulations.map (·.challenge)) c CHAL_LENGTH +
          ((pr.simulations.map (·.challenge)).drop pr.true_prover_idx).sum) =
        (pr.simulations.map (·.challenge)).sum +
          find_residual_chal (pr.simulations.map (·.challenge)) c CHAL_LENGTH := by
      rw [← hsum2]; ring
    rw [h3, find_residual_chal_eq]
    exact add_residual_emod _ c _

/-- Witness for C1 at a concrete OR prover with three children, real index 1. -/
theorem orProver_compute_response_spec_witness :
    ([⟨(0 : Int), 3, (0 : Int), 0⟩,
      ⟨(0 : Int), 4, (0 : Int), 0⟩] :
        List (SimulationTranscript Int Int Int)).length + 1 = 3 ∧
      (1 : Nat) < 3 ∧
      (orComputeResponse
          (⟨1, 3, [⟨0, 3, 0, 0⟩, ⟨0, 4, 0, 0⟩], fun ch => ch + 1⟩ :
            OrProverRep Int Int Int) 5).1.sum % (2 : Int) ^ CHAL_LENGTH =
        (5 : Int) % (2 : Int) ^ CHAL_LENGTH := by
  refine ⟨by decide, by decide, ?_⟩
  exact (orProver_compute_response_spec
    (⟨1, 3, [⟨0, 3, 0, 0⟩, ⟨0, 4, 0, 0⟩], fun ch => ch + 1⟩ :
      OrProverRep Int Int Int) 5 (by decide) (by decide)).2.2

/-! ### OR verifier: commitment recomputation (C2) -/

/-- Translation of `OrProof.recompute_commitment` (CompositionProofs.py:209-229):
the subchallenges ride in the first component of the responses tuple; the
verifier raises `Inconsistent challenge` when `find_residual_chal` of the
subchallenge list against the global challenge is nonzero, and otherwise
recomputes one commitment per subproof from that subproof with its own
subchallenge and its own responses, in order.  Each subproof is abstracted
by its `recompute_commitment` function. -/
def orRecomputeCommitment {R Cm : Type} [Inhabited R] [Inhabited Cm]
    (subRecompute : List (Int → R → Cm)) (challenge : Int)
    (responses : List Int × List R) : Except String (List Cm) :=
  if find_residual_chal responses.1 challenge CHAL_LENGTH ≠ 0 then
    Except.error "Inconsistent challenge"
  else
    Except.ok ((List.range subRecompute.length).map fun i =>
      (subRecompute.getD i default) (responses.1.getD i 0) (responses.2.getD i default))

theorem find_residual_chal_eq_zero_iff (arr : List Int) (c : Int) (k : Nat) :
    find_residual_chal arr c k = 0 ↔
      arr.sum % (2 : Int) ^ k = c % (2 : Int) ^ k := by
  rw [find_residual_chal_eq, neg_eq_zero, ← Int.emod_eq_emod_iff_emod_sub_eq_zero]

/-- C2.  `OrProof.recompute_commitment c (subchallenges, responses)` raises
`Inconsistent challenge` exactly when the sum of the subchallenges is not
congruent to the global challenge `c` modulo `2 ^ CHAL_LENGTH`; when it
does not raise, it returns the list whose `i`-th element is subproof `i`
recomputing its commitment from the `i`-th subchallenge and the `i`-th
response. -/
theorem orProof_recompute_commitment_spec {R Cm : Type} [Inhabited R] [Inhabited Cm]
    (subRecompute : List (Int → R → Cm)) (c : Int)
    (chals : List Int) (resps : List R) :
    (orRecomputeCommitment subRecompute c (chals, resps) =
        Except.error "Inconsistent challenge" ↔
      chals.sum % (2 : Int) ^ CHAL_LENGTH ≠ c % (2 : Int) ^ CHAL_LENGTH) ∧
    ∀ l, orRecomputeCommitment subRecompute c (chals, resps) = Except.ok l →
      l.length = subRecompute.length ∧
        ∀ i, i < subRecompute.length →
          l.getD i default =
            (subRecompute.getD i default) (chals.getD i 0) (resps.getD i default) := by
  have hiff := find_residual_chal_eq_zero_iff chals c CHAL_LENGTH
  by_cases h : find_residual_chal chals c CHAL_LENGTH = 0
  · have hok : orRecomputeCommitment subRecompute c (chals, resps) =
        Except.ok ((List.range subRecompute.length).map fun i =>
          (subRecompute.getD i default) (chals.getD i 0) (resps.getD i default)) := by
      simp [orRecomputeCommitment, h]
    constructor
    · constructor
      · intro habs
        rw [hok] at habs
        exact absurd habs (by simp)
      · intro hne
        exact absurd (hiff.mp h) hne
    · intro l hl
      rw [hok] at hl
      have hl' : ((List.range subRecompute.length).map fun i =>
          (subRecompute.getD i default) (chals.getD i 0) (resps.getD i default)) = l :=
        Except.ok.inj hl
      subst hl'
      refine ⟨by simp, ?_⟩
      intro i hi
      have hlen : i < ((List.range subRecompute.length).map fun i =>
          (subRecompute.getD i default) (chals.getD i 0) (resps.getD i default)).length := by
        simpa using hi
      rw [List.getD_eq_getElem _ _ hlen]
      simp
  · have herr : orRecomputeCommitment subRecompute c (chals, resps) =
        Except.error "Inconsistent challenge" := by
      simp [orRecomputeCommitment, h]
    constructor
    · constructor
      · intro _
        intro heq
        exact h (hiff.mpr heq)
      · intro _
        exact herr
    · intro l hl
      rw [herr] at hl
      exact absurd hl (by simp)

/-- Witness for C2: at subchallenges `[3, 4]` against global challenge `5`
the verifier raises, and at `[2, 3]` it returns the recomputed
commitments. -/
theorem orProof_recompute_commitment_spec_witness :
    (([3, 4] : List Int).sum % (2 : Int) ^ CHAL_LENGTH ≠
        (5 : Int) % (2 : Int) ^ CHAL_LENGTH) ∧
      orRecomputeCommitment
          ([fun ch r => ch + r, fun ch r => ch * r] : List (Int → Int → Int)) 5
          ([3, 4], [10, 20]) = Except.error "Inconsistent challenge" ∧
      ([12, 60] : List Int).getD 1 default =
        (([fun ch r => ch + r, fun ch r => ch * r] :
            List (Int → Int → Int)).getD 1 default)
          (([2, 3] : List Int).getD 1 0) (([10, 20] : List Int).getD 1 default) := by
  have hne : ([3, 4] : List Int).sum % (2 : Int) ^ CHAL_LENGTH ≠
      (5 : Int) % (2 : Int) ^ CHAL_LENGTH := by norm_num [CHAL_LENGTH]
  have h0 : find_residual_chal [2, 3] 5 CHAL_LENGTH = 0 := by
    rw [find_residual_chal_eq]
    norm_num
  have hok : orRecomputeCommitment
      ([fun ch r => ch + r, fun ch r => ch * r] : List (Int → Int → Int)) 5
      ([2, 3], [10, 20]) = Except.ok [12, 60] := by
    simp only [orRecomputeCommitment, h0, ne_eq, not_true_eq_false, if_false]
    norm_num [List.range_succ]
  refine ⟨hne, ?_, ?_⟩
  · exact (orProof_recompute_commitment_spec
      ([fun ch r => ch + r, fun ch r => ch * r] : List (Int → Int → Int)) 5
      [3, 4] [10, 20]).1.mpr hne
  · exact ((orProof_recompute_commitment_spec
      ([fun ch r => ch + r, fun ch r => ch * r] : List (Int → Int → Int)) 5
      [2, 3] [10, 20]).2 [12, 60] hok).2 1 (by decide)

/-! ### Expression trees: secret bags, OR-flaw detection (C3), proof ids (C8) -/

/-- Expression tree of the composition engine: leaf proofs (abstracted by
an identity used for `get_proof_id` and their ordered bag of secret
identities; `Secret` equality is referential, so secrets are `Nat` ids),
OR composites and AND composites. -/
inductive ProofTree where
  | leaf (id : Nat) (secrets : List Nat)
  | orP (subs : List ProofTree)
  | andP (subs : List ProofTree)

mutual
/-- Modelled from the spec: `get_secret_vars` lives in the missing
`Abstractions` module; per the spec the secret bag of a composite is the
concatenation, with multiplicity and in order, of the secret bags of its
children. -/
def secret_vars : ProofTree → List Nat
  | ProofTree.leaf _ s => s
  | ProofTree.orP subs => secret_vars_list subs
  | ProofTree.andP subs => secret_vars_list subs
def secret_vars_list : List ProofTree → List Nat
  | [] => []
  | t :: ts => secret_vars t ++ secret_vars_list ts
end

mutual
/-- Translation of `check_or_flaw` dispatch (CompositionProofs.py:97-101,
271-284, 535-544) for a call with a non-`None` forbidden list: a leaf does
nothing, an OR node raises iff some secret of its bag has a strictly
larger count in `forbidden` than in its own bag, and an AND node forwards
the same forbidden list to its children.  `true` means the Python code
raises. -/
def check_or_flaw : ProofTree → List Nat → Bool
  | ProofTree.leaf _ _, _ => false
  | ProofTree.orP subs, forbidden =>
      (secret_vars (ProofTree.orP subs)).any fun s =>
        (secret_vars (ProofTree.orP subs)).count s < forbidden.count s
  | ProofTree.andP subs, forbidden => check_or_flaw_list subs forbidden
def check_or_flaw_list : List ProofTree → List Nat → Bool
  | [], _ => false
  | t :: ts, forbidden => check_or_flaw t forbidden || check_or_flaw_list ts forbidden
end

/-- Translation of the OR-flaw check run by `AndProof.__init__`
(CompositionProofs.py:460, 535-544): the constructor calls
`check_or_flaw()` with no argument, which sets the forbidden list to the
AND node's own full secret bag and forwards it to every child. -/
def andConstructOrFlaw (subs : List ProofTree) : Bool :=
  check_or_flaw_list subs (secret_vars_list subs)

mutual
/-- Bags of the OR nodes reachable from a node through AND nodes only
(the OR nodes the dispatch of `check_or_flaw` actually visits: an OR node
does not forward the check to its own children). -/
def maximal_or_bags : ProofTree → List (List Nat)
  | ProofTree.leaf _ _ => []
  | ProofTree.orP subs => [secret_vars (ProofTree.orP subs)]
  | ProofTree.andP subs => maximal_or_bags_list subs
def maximal_or_bags_list : List ProofTree → List (List Nat)
  | [] => []
  | t :: ts => maximal_or_bags t ++ maximal_or_bags_list ts
end

mutual
/-- Bags of all OR nodes in the subtree, nested ORs included (the reading
of the claim: every OR node in the subtree). -/
def all_or_bags : ProofTree → List (List Nat)
  | ProofTree.leaf _ _ => []
  | ProofTree.orP subs => secret_vars (ProofTree.orP subs) :: all_or_bags_list subs
  | ProofTree.andP subs => all_or_bags_list subs
def all_or_bags_list : List ProofTree → List (List Nat)
  | [] => []
  | t :: ts => all_or_bags t ++ all_or_bags_list ts
end

theorem check_or_flaw_list_any (subs : List ProofTree) (f : List Nat) :
    check_or_flaw_list subs f = true ↔
      ∃ t ∈ subs, check_or_flaw t f = true := by
  induction subs with
  | nil => simp [check_or_flaw_list]
  | cons t ts ih => simp [check_or_flaw_list, ih]

theorem maximal_or_bags_list_mem (subs : List ProofTree) (bag : List Nat) :
    bag ∈ maximal_or_bags_list subs ↔
      ∃ t ∈ subs, bag ∈ maximal_or_bags t := by
  induction subs with
  | nil => simp [maximal_or_bags_list]
  | cons t ts ih => simp [maximal_or_bags_list, ih]

theorem check_or_flaw_iff (t : ProofTree) (forbidden : List Nat) :
    check_or_flaw t forbidden = true ↔
      ∃ bag ∈ maximal_or_bags t, ∃ s ∈ bag,
        bag.count s < forbidden.count s := by
  have main : ∀ n (t : ProofTree) (f : List Nat), sizeOf t ≤ n →
      (check_or_flaw t f = true ↔
        ∃ bag ∈ maximal_or_bags t, ∃ s ∈ bag, bag.count s < f.count s) := by
    intro n
    induction n with
    | zero =>
      intro t f h
      exfalso
      cases t <;> simp at h
    | succ n ih =>
      intro t f h
      cases t with
      | leaf i s => simp [check_or_flaw, maximal_or_bags]
      | orP subs => simp [check_or_flaw, maximal_or_bags, List.any_eq_true]
      | andP subs =>
        have hsz : ∀ t' ∈ subs, sizeOf t' ≤ n := by
          intro t' ht'
          have h1 := List.sizeOf_lt_of_mem ht'
          have h2 : sizeOf (ProofTree.andP subs) = 1 + sizeOf subs := by simp
          omega
        show check_or_flaw_list subs f = true ↔
          ∃ bag ∈ maximal_or_bags_list subs, ∃ s ∈ bag, bag.count s < f.count s
        rw [check_or_flaw_list_any]
        constructor
        · rintro ⟨t', ht', hc⟩
          obtain ⟨bag, hbag, s, hsb, hcount⟩ := (ih t' f (hsz t' ht')).mp hc
          exact ⟨bag, (maximal_or_bags_list_mem subs bag).mpr ⟨t', ht', hbag⟩,
            s, hsb, hcount⟩
        · rintro ⟨bag, hbag, s, hsb, hcount⟩
          obtain ⟨t', ht', hbag'⟩ := (maximal_or_bags_list_mem subs bag).mp hbag
          exact ⟨t', ht', (ih t' f (hsz t' ht')).mpr ⟨bag, hbag', s, hsb, hcount⟩⟩
  exact main (sizeOf t) t forbidden (le_refl _)

/-- Tree on which the literal claim fails: an AND of a leaf on secret 0
and an OR whose second branch is a nested OR; secret 1 occurs once inside
the nested OR and once more in the sibling branch of the outer OR. -/
def exC3subs : List ProofTree :=
  [ProofTree.leaf 10 [0],
   ProofTree.orP [ProofTree.leaf 11 [1],
     ProofTree.orP [ProofTree.leaf 12 [1], ProofTree.leaf 13 [2]]]]

/-- C3 counterexample.  On `exC3subs` the AND constructor raises nothing
(`andConstructOrFlaw` is `false`), yet the nested OR node of the subtree
has a bag in which secret 1 counts once while it counts twice in the AND
node's full secret bag, so the claimed criterion over all OR nodes of the
subtree is `true`. -/
theorem andProof_check_or_flaw_counterexample :
    andConstructOrFlaw exC3subs = false ∧
      ((all_or_bags_list exC3subs).any fun bag =>
        bag.any fun s => bag.count s < (secret_vars_list exC3subs).count s) = true := by
  decide

/-- C3 amended.  Constructing an AND node raises `OrFlaw` iff, for some OR
node of its subtree reachable through AND nodes only (the check does not
descend into OR nodes, so ORs nested inside ORs are not inspected) and
some secret occurring in that OR, the occurrence count of the secret in
the AND's full secret bag strictly exceeds its count in that OR's bag; OR
construction alone performs no such check. -/
theorem andProof_check_or_flaw_amended (subs : List ProofTree) :
    andConstructOrFlaw subs = true ↔
      ∃ bag ∈ maximal_or_bags_list subs, ∃ s ∈ bag,
        bag.count s < (secret_vars_list subs).count s := by
  show check_or_flaw_list subs (secret_vars_list subs) = true ↔ _
  rw [check_or_flaw_list_any]
  constructor
  · rintro ⟨t', ht', hc⟩
    obtain ⟨bag, hbag, s, hsb, hcount⟩ := (check_or_flaw_iff t' _).mp hc
    exact ⟨bag, (maximal_or_bags_list_mem subs bag).mpr ⟨t', ht', hbag⟩,
      s, hsb, hcount⟩
  · rintro ⟨bag, hbag, s, hsb, hcount⟩
    obtain ⟨t', ht', hbag'⟩ := (maximal_or_bags_list_mem subs bag).mp hbag
    exact ⟨t', ht', (check_or_flaw_iff t' _).mpr ⟨bag, hbag', s, hsb, hcount⟩⟩

/-! ### Proof identifiers and infix composition (C8) -/

/-- Canonical descriptor returned by `get_proof_id`: a leaf returns its
own descriptor (abstracted by the leaf identity), a composite returns the
tagged list `[tag, [children ids]]`. -/
inductive ProofId where
  | leafPid (n : Nat)
  | comp (tag : String) (ids : List ProofId)

mutual
/-- Translation of `get_proof_id` (CompositionProofs.py:206-207, 498-499):
`[bracketTag, [sub.get_proof_id() for sub in subproofs]]`. -/
def get_proof_id : ProofTree → ProofId
  | ProofTree.leaf i _ => ProofId.leafPid i
  | ProofTree.orP subs => ProofId.comp "Or" (get_proof_id_list subs)
  | ProofTree.andP subs => ProofId.comp "And" (get_proof_id_list subs)
def get_proof_id_list : List ProofTree → List ProofId
  | [] => []
  | t :: ts => get_proof_id t :: get_proof_id_list ts
end

/-- Translation of `Proof.__and__` (CompositionProofs.py:9-21): if the
other operand is an AND its children are merged, likewise for the left
operand; otherwise a fresh two-child AND is built. -/
def proofAnd (self other : ProofTree) : ProofTree :=
  match other, self with
  | ProofTree.andP osubs, ProofTree.andP ssubs => ProofTree.andP (ssubs ++ osubs)
  | ProofTree.andP osubs, _ => ProofTree.andP (self :: osubs)
  | _, ProofTree.andP ssubs => ProofTree.andP (ssubs ++ [other])
  | _, _ => ProofTree.andP [self, other]

/-- Translation of `Proof.__or__` (CompositionProofs.py:23-35), the OR
mirror of `proofAnd`. -/
def proofOr (self other : ProofTree) : ProofTree :=
  match other, self with
  | ProofTree.orP osubs, ProofTree.orP ssubs => ProofTree.orP (ssubs ++ osubs)
  | ProofTree.orP osubs, _ => ProofTree.orP (self :: osubs)
  | _, ProofTree.orP ssubs => ProofTree.orP (ssubs ++ [other])
  | _, _ => ProofTree.orP [self, other]

/-- Discriminator for AND nodes (the `isinstance(_, AndProof)` test). -/
def isAndNode : ProofTree → Bool
  | ProofTree.andP _ => true
  | _ => false

/-- Discriminator for OR nodes (the `isinstance(_, OrProof)` test). -/
def isOrNode : ProofTree → Bool
  | ProofTree.orP _ => true
  | _ => false

/-- Operand on which the literal claim fails: a proof that is itself an
AND of two leaves. -/
def exC8a : ProofTree := ProofTree.andP [ProofTree.leaf 0 [], ProofTree.leaf 1 []]

/-- C8 counterexample.  With `a` itself an AND node, composing
`(a & leaf 2) & leaf 3` flattens the children of `a` into the composite,
so its proof id differs from the proof id of the three-child constructor
`AndProof(a, leaf 2, leaf 3)`: the claim does not hold for all proofs
`a, b, c`. -/
theorem composition_flattening_counterexample :
    get_proof_id (proofAnd (proofAnd exC8a (ProofTree.leaf 2 []))
        (ProofTree.leaf 3 [])) ≠
      get_proof_id (ProofTree.andP
        [exC8a, ProofTree.leaf 2 [], ProofTree.leaf 3 []]) := by
  simp [exC8a, proofAnd, get_proof_id, get_proof_id_list]

/-- C8 amended.  For all proofs `a, b, c` none of which is itself an AND
node (an OR node or a leaf is fine), infix AND composition flattens:
`(a & b) & c` has the same proof id as the three-child constructor
`AndProof(a, b, c)`; likewise the OR law holds when none of the operands
is itself an OR node.  An operand that is already a same-kind composite
instead has its own children merged into the result. -/
theorem composition_flattening_amended (a b c : ProofTree) :
    (isAndNode a = false → isAndNode b = false → isAndNode c = false →
      get_proof_id (proofAnd (proofAnd a b) c) =
        get_proof_id (ProofTree.andP [a, b, c])) ∧
      (isOrNode a = false → isOrNode b = false → isOrNode c = false →
        get_proof_id (proofOr (proofOr a b) c) =
          get_proof_id (ProofTree.orP [a, b, c])) := by
  constructor
  · intro ha hb hc
    have h1 : proofAnd a b = ProofTree.andP [a, b] := by
      cases a <;> cases b <;> simp_all [proofAnd, isAndNode]
    have h2 : proofAnd (ProofTree.andP [a, b]) c = ProofTree.andP [a, b, c] := by
      cases c <;> simp_all [proofAnd, isAndNode]
    rw [h1, h2]
  · intro ha hb hc
    have h1 : proofOr a b = ProofTree.orP [a, b] := by
      cases a <;> cases b <;> simp_all [proofOr, isOrNode]
    have h2 : proofOr (ProofTree.orP [a, b]) c = ProofTree.orP [a, b, c] := by
      cases c <;> simp_all [proofOr, isOrNode]
    rw [h1, h2]

/-- Witness for the amended C8: the AND law applied with an OR-node first
operand (allowed by the AND half), and the OR law applied with an
AND-node first operand (allowed by the OR half). -/
theorem composition_flattening_amended_witness :
    isAndNode (ProofTree.orP [ProofTree.leaf 4 [], ProofTree.leaf 5 []]) = false ∧
      get_proof_id (proofAnd (proofAnd
            (ProofTree.orP [ProofTree.leaf 4 [], ProofTree.leaf 5 []])
            (ProofTree.leaf 1 [])) (ProofTree.leaf 2 [])) =
        get_proof_id (ProofTree.andP
          [ProofTree.orP [ProofTree.leaf 4 [], ProofTree.leaf 5 []],
            ProofTree.leaf 1 [], ProofTree.leaf 2 []]) ∧
      isOrNode (ProofTree.andP [ProofTree.leaf 4 [], ProofTree.leaf 5 []]) = false ∧
      get_proof_id (proofOr (proofOr
            (ProofTree.andP [ProofTree.leaf 4 [], ProofTree.leaf 5 []])
            (ProofTree.leaf 1 [])) (ProofTree.leaf 2 [])) =
        get_proof_id (ProofTree.orP
          [ProofTree.andP [ProofTree.leaf 4 [], ProofTree.leaf 5 []],
            ProofTree.leaf 1 [], ProofTree.leaf 2 []]) :=
  ⟨rfl,
    (composition_flattening_amended
      (ProofTree.orP [ProofTree.leaf 4 [], ProofTree.leaf 5 []])
      (ProofTree.leaf 1 []) (ProofTree.leaf 2 [])).1 rfl rfl rfl,
    rfl,
    (composition_flattening_amended
      (ProofTree.andP [ProofTree.leaf 4 [], ProofTree.leaf 5 []])
      (ProofTree.leaf 1 []) (ProofTree.leaf 2 [])).2 rfl rfl rfl⟩

/-! ### Python dictionaries over Secret identities -/

/-- Python dictionary keyed by `Secret` identities, as an association
list; `dict.update` appends the new bindings, so lookups take the last
binding of a key. -/
abbrev Dict (V : Type) := List (Nat × V)

/-- Lookup with the last binding of a key winning, matching the map built
by Python assignments. -/
def dictLookup {V : Type} : Dict V → Nat → Option V
  | [], _ => none
  | (k2, v) :: rest, k =>
      match dictLookup rest k with
      | some w => some w
      | none => if k2 = k then some v else none

/-- Filtering a dictionary to a set of keys, as done by
`sub_proof_prover` when it passes a child only the secrets it declares. -/
def dictFilter {V : Type} (d : Dict V) (keys : List Nat) : Dict V :=
  d.filter fun p => decide (p.1 ∈ keys)

theorem dictLookup_append {V : Type} (d1 d2 : Dict V) (k : Nat) :
    dictLookup (d1 ++ d2) k =
      match dictLookup d2 k with
      | some w => some w
      | none => dictLookup d1 k := by
  induction d1 with
  | nil =>
    simp only [List.nil_append]
    cases dictLookup d2 k <;> simp [dictLookup]
  | cons p d1 ih =>
    obtain ⟨k2, v⟩ := p
    simp only [List.cons_append, dictLookup, List.append_eq]
    rw [ih]
    cases h2 : dictLookup d2 k <;> simp [dictLookup]

theorem dictLookup_filter {V : Type} (d : Dict V) (keys : List Nat) (k : Nat) :
    dictLookup (dictFilter d keys) k =
      if k ∈ keys then dictLookup d k else none := by
  induction d with
  | nil => simp [dictFilter, dictLookup]
  | cons p d ih =>
    obtain ⟨k2, v⟩ := p
    by_cases hk2 : k2 ∈ keys
    · have hfil : dictFilter ((k2, v) :: d) keys = (k2, v) :: dictFilter d keys := by
        simp [dictFilter, hk2]
      rw [hfil]
      simp only [dictLookup, ih]
      by_cases hk : k ∈ keys
      · rw [if_pos hk, if_pos hk]
      · rw [if_neg hk, if_neg hk]
        have hne2 : k2 ≠ k := fun h => hk (h ▸ hk2)
        simp [hne2]
    · have hfil : dictFilter ((k2, v) :: d) keys = dictFilter d keys := by
        simp [dictFilter, hk2]
      rw [hfil, ih]
      by_cases hk : k ∈ keys
      · rw [if_pos hk, if_pos hk]
        have hne2 : k2 ≠ k := fun h => hk2 (h ▸ hk)
        cases hd : dictLookup d k <;> simp [dictLookup, hd, hne2]
      · rw [if_neg hk, if_neg hk]

/-! ### Randomizer completion and AND simulation (C4) -/

/-- Translation of `AndProof.get_randomizers` (CompositionProofs.py:501-511):
pair each secret of the bag with one generator (`dict(zip(..))`
deduplicates reoccurring secrets) and then with a fresh scalar; the fresh
uniform draws are supplied by the `draw` oracle. -/
def get_randomizers {V : Type} (draw : Nat → V) (vars : List Nat) : Dict V :=
  vars.dedup.map fun x => (x, draw x)

/-- Translation of `Proof.update_randomizers` (CompositionProofs.py:103-117):
draw a full dictionary when none is given; when the given one misses some
secret of the bag, draw a full dictionary and override it with the given
entries (`tmp.update(randomizers_dict)`); otherwise keep it unchanged. -/
def update_randomizers {V : Type} (draw : Nat → V) (vars : List Nat) :
    Option (Dict V) → Dict V
  | none => get_randomizers draw vars
  | some d =>
      if vars.any fun x => (dictLookup d x).isNone then
        get_randomizers draw vars ++ d
      else d

theorem dictLookup_map_self {V : Type} (draw : Nat → V) (vars : List Nat) (k : Nat) :
    dictLookup (vars.map fun x => (x, draw x)) k =
      if k ∈ vars then some (draw k) else none := by
  induction vars with
  | nil => simp [dictLookup]
  | cons a vs ih =>
    simp only [List.map_cons, dictLookup, ih]
    by_cases hk : k ∈ vs
    · simp [hk]
    · by_cases hak : a = k
      · subst hak
        simp [hk]
      · have hka : ¬ k = a := fun h => hak h.symm
        simp [hk, hak, hka]

theorem get_randomizers_lookup {V : Type} (draw : Nat → V) (vars : List Nat) (k : Nat) :
    dictLookup (get_randomizers draw vars) k =
      if k ∈ vars then some (draw k) else none := by
  rw [get_randomizers, dictLookup_map_self]
  by_cases hk : k ∈ vars <;> simp [hk]

/-- Translation of `AndProof.simulate_proof` (CompositionProofs.py:513-533):
complete the responses dictionary, draw the global challenge when absent
(the draw is the `drawnChal` oracle), then ask every child to simulate
with that same dictionary and challenge and gather the fields.  Children
are abstracted by their `simulate_proof` functions. -/
def andSimulateProof {V C R P : Type} (draw : Nat → V) (vars : List Nat)
    (subSimulate : List (Dict V → Int → SimulationTranscript C R P))
    (responses_dict : Option (Dict V)) (challenge : Option Int)
    (drawnChal : Int) : SimulationTranscript (List C) (List R) (List P) :=
  let d := update_randomizers draw vars responses_dict
  let ch := challenge.getD drawnChal
  { commitment := subSimulate.map fun f => (f d ch).commitment
    challenge := ch
    responses := subSimulate.map fun f => (f d ch).responses
    precommitment := subSimulate.map fun f => (f d ch).precommitment }

/-- C4.  `AndProof.simulate_proof` first completes the responses
dictionary — every caller-provided entry is kept, only secrets of the bag
missing from it are drawn, and keys outside both stay absent — and then
passes that one completed dictionary and the one global challenge to every
child's simulator, gathering the children's fields in order. -/
theorem andProof_simulate_proof_spec {V C R P : Type} (draw : Nat → V)
    (vars : List Nat)
    (subSimulate : List (Dict V → Int → SimulationTranscript C R P))
    (d0 : Dict V) (challenge : Option Int) (drawnChal : Int) :
    (∀ x v, dictLookup d0 x = some v →
        dictLookup (update_randomizers draw vars (some d0)) x = some v) ∧
      (∀ x, x ∈ vars → dictLookup d0 x = none →
        dictLookup (update_randomizers draw vars (some d0)) x = some (draw x)) ∧
      (∀ x, x ∉ vars → dictLookup d0 x = none →
        dictLookup (update_randomizers draw vars (some d0)) x = none) ∧
      andSimulateProof draw vars subSimulate (some d0) challenge drawnChal =
        { commitment := subSimulate.map fun f =>
            (f (update_randomizers draw vars (some d0))
              (challenge.getD drawnChal)).commitment
          challenge := challenge.getD drawnChal
          responses := subSimulate.map fun f =>
            (f (update_randomizers draw vars (some d0))
              (challenge.getD drawnChal)).responses
          precommitment := subSimulate.map fun f =>
            (f (update_randomizers draw vars (some d0))
              (challenge.getD drawnChal)).precommitment } := by
  by_cases hany : (vars.any fun x => (dictLookup d0 x).isNone) = true
  · have hupd : update_randomizers draw vars (some d0) =
        get_randomizers draw vars ++ d0 := by
      simp [update_randomizers, hany]
    refine ⟨?_, ?_, ?_, rfl⟩
    · intro x v hx
      rw [hupd, dictLookup_append, hx]
    · intro x hxv hx
      rw [hupd, dictLookup_append, hx, get_randomizers_lookup, if_pos hxv]
    · intro x hxv hx
      rw [hupd, dictLookup_append, hx, get_randomizers_lookup, if_neg hxv]
  · have hupd : update_randomizers draw vars (some d0) = d0 := by
      simp only [update_randomizers]
      rw [if_neg hany]
    refine ⟨?_, ?_, ?_, rfl⟩
    · intro x v hx
      rw [hupd, hx]
    · intro x hxv hx
      exfalso
      apply hany
      rw [List.any_eq_true]
      exact ⟨x, hxv, by rw [hx]; rfl⟩
    · intro x _ hx
      rw [hupd, hx]

/-- Witness for C4: with bag `[0, 1]` and a caller dictionary binding only
secret 0, the completed dictionary keeps the caller value for 0 and draws
a fresh value for 1. -/
theorem andProof_simulate_proof_spec_witness :
    dictLookup [(0, 7)] 0 = some 7 ∧
      dictLookup (update_randomizers (fun n => n + 100) [0, 1] (some [(0, 7)])) 0 =
        some 7 ∧
      dictLookup (update_randomizers (fun n => n + 100) [0, 1] (some [(0, 7)])) 1 =
        some 101 := by
  have h := andProof_simulate_proof_spec (fun n => n + 100) [0, 1]
    ([] : List (Dict Nat → Int → SimulationTranscript Nat Nat Nat))
    [(0, 7)] none 9
  refine ⟨rfl, h.1 0 7 rfl, ?_⟩
  simpa using h.2.1 1 (by decide) rfl

/-! ### Prover construction: AND (C5), OR (C6), guards (C10) -/

/-- Translation of `sub_proof_prover` (CompositionProofs.py:169-181):
filter the secrets dictionary down to the keys the subproof declares and
hand the result to the subproof's `get_prover`.  The subproof is
abstracted by its declared secret variables and its `get_prover`
function. -/
def sub_proof_prover {V P : Type} (subVars : List Nat)
    (subGetProver : Dict V → Option P) (secrets_dict : Dict V) : Option P :=
  subGetProver (dictFilter secrets_dict subVars)

/-- Collapse of the Python `if None in subs: return None` pattern: a list
of optional subprovers yields the list of subprovers exactly when none is
absent. -/
def allSome {α : Type} : List (Option α) → Option (List α)
  | [] => some []
  | none :: _ => none
  | some x :: rest => (allSome rest).map (x :: ·)

/-- Translation of `AndProof.get_prover` (CompositionProofs.py:474-490):
merge the provided secrets into the recorded secret values; return absent
under the simulation flag or an empty merged dictionary; otherwise build
one subprover per child through `sub_proof_prover` and return absent if
any of them is absent. -/
def andGetProver {V P : Type} (simFlag : Bool) (secret_values : Dict V)
    (children : List (List Nat × (Dict V → Option P)))
    (secrets_dict : Dict V) : Option (List P) :=
  let merged := secret_values ++ secrets_dict
  if simFlag || merged.isEmpty then none
  else allSome (children.map fun ch => sub_proof_prover ch.1 ch.2 merged)

theorem allSome_eq_none_iff {α : Type} (l : List (Option α)) :
    allSome l = none ↔ none ∈ l := by
  induction l with
  | nil => simp [allSome]
  | cons o l ih => cases o <;> simp [allSome, ih]

theorem allSome_eq_some_iff {α : Type} (l : List (Option α)) (xs : List α) :
    allSome l = some xs ↔ l = xs.map some := by
  induction l generalizing xs with
  | nil => cases xs <;> simp [allSome]
  | cons o l ih =>
    cases o with
    | none => cases xs <;> simp [allSome]
    | some x =>
      cases xs with
      | nil => simp [allSome]
      | cons y ys =>
        simp only [allSome, Option.map_eq_some', List.map_cons, List.cons.injEq,
          Option.some.injEq]
        constructor
        · rintro ⟨zs, hzs, hx, rfl⟩
          exact ⟨hx, (ih zs).mp hzs⟩
        · rintro ⟨hx, hl⟩
          exact ⟨ys, (ih ys).mpr hl, hx, rfl⟩

/-- C5.  `AndProof.get_prover` builds one child prover per child, passing
each child exactly the entries of the merged witness dictionary whose
keys are among that child's declared secret variables (all such entries
and nothing else), and the AND prover is absent whenever some child's
prover construction is absent; otherwise it is the list of the child
provers in order. -/
theorem andProof_get_prover_spec {V P : Type} [Inhabited P]
    (secret_values : Dict V)
    (children : List (List Nat × (Dict V → Option P)))
    (secrets_dict : Dict V)
    (hne : (secret_values ++ secrets_dict).isEmpty = false) :
    (∀ ch ∈ children, ∀ k,
        (k ∈ ch.1 →
          dictLookup (dictFilter (secret_values ++ secrets_dict) ch.1) k =
            dictLookup (secret_values ++ secrets_dict) k) ∧
        (k ∉ ch.1 →
          dictLookup (dictFilter (secret_values ++ secrets_dict) ch.1) k = none)) ∧
      ((∃ ch ∈ children,
          ch.2 (dictFilter (secret_values ++ secrets_dict) ch.1) = none) →
        andGetProver false secret_values children secrets_dict = none) ∧
      (∀ l, andGetProver false secret_values children secrets_dict = some l →
        l.length = children.length ∧
          ∀ i, i < children.length →
            (children.getD i default).2
                (dictFilter (secret_values ++ secrets_dict)
                  (children.getD i default).1) =
              some (l.getD i default)) := by
  have hguard : andGetProver false secret_values children secrets_dict =
      allSome (children.map fun ch =>
        sub_proof_prover ch.1 ch.2 (secret_values ++ secrets_dict)) := by
    simp [andGetProver, hne]
  refine ⟨?_, ?_, ?_⟩
  · intro ch _ k
    constructor
    · intro hk
      rw [dictLookup_filter, if_pos hk]
    · intro hk
      rw [dictLookup_filter, if_neg hk]
  · intro ⟨ch, hch, habs⟩
    rw [hguard, allSome_eq_none_iff]
    rw [List.mem_map]
    exact ⟨ch, hch, habs⟩
  · intro l hl
    rw [hguard, allSome_eq_some_iff] at hl
    have hlen : children.length = l.length := by
      have := congrArg List.length hl
      simpa using this
    refine ⟨hlen.symm, ?_⟩
    intro i hi
    have hil : i < l.length := by omega
    have hmapl : i < (children.map fun ch =>
        sub_proof_prover ch.1 ch.2 (secret_values ++ secrets_dict)).length := by
      simpa using hi
    have hmapr : i < (l.map some).length := by simpa using hil
    have he : (children.map fun ch =>
        sub_proof_prover ch.1 ch.2 (secret_values ++ secrets_dict))[i] =
        (l.map some)[i] := by
      rw [List.getElem_of_eq hl]
    rw [List.getElem_map, List.getElem_map] at he
    rw [List.getD_eq_getElem _ _ hi, List.getD_eq_getElem _ _ hil]
    exact he

/-- Witness for C5 at two concrete children, one of which (the second)
cannot build its prover. -/
theorem andProof_get_prover_spec_witness :
    (([(0, 5), (1, 6)] : Dict Nat) ++ []).isEmpty = false ∧
      dictLookup (dictFilter (([(0, 5), (1, 6)] : Dict Nat) ++ []) [0]) 1 = none ∧
      andGetProver false ([(0, 5), (1, 6)] : Dict Nat)
          [([0], fun d => dictLookup d 0), ([1], fun _ => (none : Option Nat))]
          [] = none := by
  have h := andProof_get_prover_spec ([(0, 5), (1, 6)] : Dict Nat)
    [([0], fun d => dictLookup d 0), ([1], fun _ => (none : Option Nat))]
    [] rfl
  refine ⟨rfl, ?_, ?_⟩
  · exact ((h.1 ([0], fun d => dictLookup d 0) (by simp) 1).2 (by decide))
  · exact h.2.1 ⟨([1], fun _ => (none : Option Nat)), by simp, rfl⟩

/-- Candidate indices for the OR draw (CompositionProofs.py:240-247):
children whose simulation flag is not set. -/
def orCandidates (subFlags : List Bool) : List Nat :=
  (List.range subFlags.length).filter fun i => !(subFlags.getD i true)

/-- Translation of the draw-and-retry loop of `OrProof.get_prover`
(CompositionProofs.py:248-266): pick an element of the remaining
candidates (the `pick` oracle stands for `random.SystemRandom().choice`),
return it if a prover can be built from it (`childOk` abstracts
`sub_proof_prover(subproofs[idx], secrets) is not None`), otherwise erase
it and retry; absent when the candidates run out.  The fuel equals the
initial number of candidates, which bounds the number of draws. -/
def orLoop (childOk : Nat → Bool) (pick : List Nat → Nat) :
    Nat → List Nat → Option Nat
  | _, [] => none
  | 0, _ => none
  | fuel + 1, p :: rest =>
      let chosen := pick (p :: rest)
      if childOk chosen then some chosen
      else orLoop childOk pick fuel ((p :: rest).erase chosen)

/-- Translation of `OrProof.get_prover` (CompositionProofs.py:231-266):
merge the secrets, return absent under the simulation flag or an empty
merged dictionary, disqualify children whose simulation flag is set,
return absent when no candidate is left, and otherwise run the
draw-and-retry loop.  The returned index is the recorded
`chosen_idx`, which the `OrProver` stores as its `true_prover_idx`. -/
def orGetProver {V : Type} (simFlag : Bool) (secret_values : Dict V)
    (subFlags : List Bool) (childOk : Nat → Bool)
    (pick : List Nat → Nat) (secrets_dict : Dict V) : Option Nat :=
  let merged := secret_values ++ secrets_dict
  if simFlag || merged.isEmpty then none
  else if (orCandidates subFlags).isEmpty then none
  else orLoop childOk pick (orCandidates subFlags).length (orCandidates subFlags)

theorem orLoop_eq_some {childOk : Nat → Bool} {pick : List Nat → Nat}
    (hpick : ∀ l : List Nat, l ≠ [] → pick l ∈ l) :
    ∀ fuel possible c, orLoop childOk pick fuel possible = some c →
      c ∈ possible ∧ childOk c = true := by
  intro fuel
  induction fuel with
  | zero =>
    intro possible c h
    cases possible <;> simp [orLoop] at h
  | succ fuel ih =>
    intro possible c h
    cases possible with
    | nil => simp [orLoop] at h
    | cons p rest =>
      simp only [orLoop] at h
      by_cases hok : childOk (pick (p :: rest)) = true
      · rw [if_pos hok] at h
        have hc := Option.some.inj h
        subst hc
        exact ⟨hpick (p :: rest) (by simp), hok⟩
      · rw [if_neg hok] at h
        obtain ⟨hc1, hc2⟩ := ih _ c h
        exact ⟨List.mem_of_mem_erase hc1, hc2⟩

theorem orLoop_eq_none_iff {childOk : Nat → Bool} {pick : List Nat → Nat}
    (hpick : ∀ l : List Nat, l ≠ [] → pick l ∈ l) :
    ∀ fuel possible, possible.Nodup → possible.length ≤ fuel →
      (orLoop childOk pick fuel possible = none ↔
        ∀ c ∈ possible, childOk c = false) := by
  intro fuel
  induction fuel with
  | zero =>
    intro possible hnd hlen
    have hemp : possible = [] := List.eq_nil_of_length_eq_zero (by omega)
    subst hemp
    simp [orLoop]
  | succ fuel ih =>
    intro possible hnd hlen
    cases possible with
    | nil => simp [orLoop]
    | cons p rest =>
      simp only [orLoop]
      have hmem := hpick (p :: rest) (by simp)
      by_cases hok : childOk (pick (p :: rest)) = true
      · rw [if_pos hok]
        constructor
        · intro habs
          exact Option.noConfusion habs
        · intro hall
          have h1 := hall (pick (p :: rest)) hmem
          rw [hok] at h1
          exact Bool.noConfusion h1
      · rw [if_neg hok]
        have hokf : childOk (pick (p :: rest)) = false := by
          revert hok
          cases childOk (pick (p :: rest)) <;> simp
        have hnd2 : ((p :: rest).erase (pick (p :: rest))).Nodup := hnd.erase _
        have hlen2 : ((p :: rest).erase (pick (p :: rest))).length ≤ fuel := by
          rw [List.length_erase_of_mem hmem]
          simp only [List.length_cons] at hlen ⊢
          omega
        rw [ih _ hnd2 hlen2]
        constructor
        · intro hall c hc
          by_cases hceq : c = pick (p :: rest)
          · subst hceq
            exact hokf
          · exact hall c ((List.Nodup.mem_erase_iff hnd).mpr ⟨hceq, hc⟩)
        · intro hall c hc
          exact hall c (List.mem_of_mem_erase hc)

theorem orCandidates_nodup (subFlags : List Bool) : (orCandidates subFlags).Nodup :=
  (List.nodup_range _).filter _

theorem orCandidates_mem (subFlags : List Bool) (i : Nat) :
    i ∈ orCandidates subFlags ↔
      i < subFlags.length ∧ subFlags.getD i true = false := by
  simp [orCandidates, List.mem_filter]

/-- C6.  Under the guards of C10 (simulation flag off, merged witness
dictionary nonempty), `OrProof.get_prover` draws the real child only
among the candidates — children whose simulation flag is not set; a drawn
child whose prover is absent is erased and a new draw is made; the OR
prover is absent exactly when every candidate fails (in particular when
there is no candidate at all because every child has its simulation flag
set); and a returned prover records a chosen index that is a candidate
whose prover construction succeeded. -/
theorem orProof_get_prover_spec {V : Type} (secret_values secrets_dict : Dict V)
    (subFlags : List Bool) (childOk : Nat → Bool) (pick : List Nat → Nat)
    (hpick : ∀ l : List Nat, l ≠ [] → pick l ∈ l)
    (hne : (secret_values ++ secrets_dict).isEmpty = false) :
    (∀ i, i ∈ orCandidates subFlags ↔
        i < subFlags.length ∧ subFlags.getD i true = false) ∧
      (orGetProver false secret_values subFlags childOk pick secrets_dict = none ↔
        ∀ i ∈ orCandidates subFlags, childOk i = false) ∧
      (∀ c, orGetProver false secret_values subFlags childOk pick secrets_dict =
          some c → c ∈ orCandidates subFlags ∧ childOk c = true) := by
  refine ⟨orCandidates_mem subFlags, ?_, ?_⟩
  · by_cases hcand : (orCandidates subFlags).isEmpty = true
    · have hemp : orCandidates subFlags = [] := by
        simpa [List.isEmpty_iff] using hcand
      rw [hemp]
      simp [orGetProver, hne, hcand]
    · have hloop : orGetProver false secret_values subFlags childOk pick
          secrets_dict = orLoop childOk pick (orCandidates subFlags).length
            (orCandidates subFlags) := by
        simp [orGetProver, hne, hcand]
      rw [hloop]
      exact orLoop_eq_none_iff hpick _ _ (orCandidates_nodup subFlags) (le_refl _)
  · intro c hc
    by_cases hcand : (orCandidates subFlags).isEmpty = true
    · rw [orGetProver] at hc
      simp [hne, hcand] at hc
    · have hloop : orGetProver false secret_values subFlags childOk pick
          secrets_dict = orLoop childOk pick (orCandidates subFlags).length
            (orCandidates subFlags) := by
        simp [orGetProver, hne, hcand]
      rw [hloop] at hc
      exact orLoop_eq_some hpick _ _ c hc

/-- Witness for C6: two children, the first forced to simulation, a draw
oracle picking the head; the prover lands on child 1. -/
theorem orProof_get_prover_spec_witness :
    (([(0, 3)] : Dict Nat) ++ []).isEmpty = false ∧
      1 ∈ orCandidates [true, false] ∧
      orGetProver false ([(0, 3)] : Dict Nat) [true, false]
        (fun _ => true) (fun l => l.headD 0) [] = some 1 := by
  have hpick : ∀ l : List Nat, l ≠ [] → l.headD 0 ∈ l := by
    intro l hl
    cases l with
    | nil => exact absurd rfl hl
    | cons a l => simp
  have h := orProof_get_prover_spec ([(0, 3)] : Dict Nat) [] [true, false]
    (fun _ => true) (fun l => l.headD 0) hpick rfl
  have hsome : orGetProver false ([(0, 3)] : Dict Nat) [true, false]
      (fun _ => true) (fun l => l.headD 0) [] = some 1 := by decide
  exact ⟨rfl, (h.2.2 1 hsome).1, hsome⟩

/-- Translation of `Proof.prove` (CompositionProofs.py:63-68): build the
prover from the secrets and run its `get_NI_proof`; with no prover there
is no transcript. -/
def proofProve {A T : Type} (getProverResult : Option A)
    (get_NI_proof : A → T) : Option T :=
  getProverResult.map get_NI_proof

/-- C10.  Both composite `get_prover` methods return absent whenever the
merged witness dictionary (recorded secret values updated with the
caller's entries) is empty, and whenever the node's own simulation flag
is set; consequently `prove` produces no transcript in those cases. -/
theorem composite_get_prover_guards {V P T : Type}
    (secret_values secrets_dict : Dict V)
    (children : List (List Nat × (Dict V → Option P)))
    (subFlags : List Bool) (childOk : Nat → Bool) (pick : List Nat → Nat)
    (simFlag : Bool) (ni : List P → T) (ni2 : Nat → T)
    (h : simFlag = true ∨ (secret_values ++ secrets_dict).isEmpty = true) :
    andGetProver simFlag secret_values children secrets_dict = none ∧
      orGetProver simFlag secret_values subFlags childOk pick secrets_dict =
        none ∧
      proofProve (andGetProver simFlag secret_values children secrets_dict) ni =
        none ∧
      proofProve
          (orGetProver simFlag secret_values subFlags childOk pick secrets_dict)
          ni2 = none := by
  have hand : andGetProver simFlag secret_values children secrets_dict = none := by
    rcases h with h | h <;> simp [andGetProver, h]
  have hor : orGetProver simFlag secret_values subFlags childOk pick
      secrets_dict = none := by
    rcases h with h | h <;> simp [orGetProver, h]
  exact ⟨hand, hor, by rw [hand]; rfl, by rw [hor]; rfl⟩

/-- Witness for C10 at a set simulation flag and at an empty merged
dictionary. -/
theorem composite_get_prover_guards_witness :
    andGetProver true ([(0, 1)] : Dict Nat)
        ([] : List (List Nat × (Dict Nat → Option Nat))) [] = none ∧
      orGetProver false ([] : Dict Nat) [false] (fun _ => true)
        (fun l => l.headD 0) [] = none := by
  refine ⟨?_, ?_⟩
  · exact (composite_get_prover_guards ([(0, 1)] : Dict Nat) []
      ([] : List (List Nat × (Dict Nat → Option Nat))) [false] (fun _ => true)
      (fun l => l.headD 0) true (fun _ => 0) (fun _ => (0 : Nat))
      (Or.inl rfl)).1
  · exact (composite_get_prover_guards ([] : Dict Nat) []
      ([] : List (List Nat × (Dict Nat → Option Nat))) [false] (fun _ => true)
      (fun l => l.headD 0) false (fun _ => 0) (fun _ => (0 : Nat))
      (Or.inr rfl)).2.1

/-! ### Statement binding and the AND verifier challenge round (C7) -/

/-- Hash of the proof descriptor (`prehash_statement`,
CompositionProofs.py:130-137): SHA-256 over the canonical encoding of
`get_proof_id`; hashing and encoding are external parameters, abstracted
by the `hashFn` oracle applied to the proof id. -/
def prehash_statement (hashFn : ProofId → Nat) (p : ProofTree) : Nat :=
  hashFn (get_proof_id p)

/-- Translation of `Proof.check_statement` (CompositionProofs.py:86-94):
raise when the received statement digest differs from the digest of the
own statement, and return the own prehash otherwise. -/
def check_statement (cur_statement : Nat) (statement : Nat) : Except String Nat :=
  if statement ≠ cur_statement then
    Except.error "Proof statements mismatch, impossible to verify"
  else Except.ok cur_statement

/-- Outcome of `AndVerifier.send_challenge`: what got stored in
`self.commitment` (under `mute` the raw received object, otherwise the
unpacked commitment list), and the drawn challenge. -/
structure SendChallengeResult (Cm : Type) where
  storedCommitment : (Nat × Cm) ⊕ Cm
  challenge : Int

/-- Translation of `AndVerifier.send_challenge` (CompositionProofs.py:600-613):
under `mute` store the received object unchecked; otherwise unpack the
received pair into a statement digest and a commitment, check the digest
against the own prehash, store the commitment; finally draw a fresh
challenge (the `drawnChal` oracle stands for `chal_randbits`). -/
def andVerifierSendChallenge {Cm : Type} (hashFn : ProofId → Nat)
    (proof : ProofTree) (commitment : Nat × Cm) (mute : Bool)
    (drawnChal : Int) : Except String (SendChallengeResult Cm) :=
  if mute then Except.ok ⟨Sum.inl commitment, drawnChal⟩
  else
    match check_statement (prehash_statement hashFn proof) commitment.1 with
    | Except.error e => Except.error e
    | Except.ok _ => Except.ok ⟨Sum.inr commitment.2, drawnChal⟩

/-- C7.  At the top level (`mute` not set) `AndVerifier.send_challenge`
unpacks the received pair and raises the statement-mismatch error exactly
when the received statement digest differs from the prehash of the
verifier's own expression, storing the unpacked commitment and drawing a
challenge otherwise; under `mute` the received object is stored with no
check at all. -/
theorem andVerifier_send_challenge_spec {Cm : Type} (hashFn : ProofId → Nat)
    (proof : ProofTree) (commitment : Nat × Cm) (drawnChal : Int) :
    (andVerifierSendChallenge hashFn proof commitment false drawnChal =
        Except.error "Proof statements mismatch, impossible to verify" ↔
      commitment.1 ≠ prehash_statement hashFn proof) ∧
      (commitment.1 = prehash_statement hashFn proof →
        andVerifierSendChallenge hashFn proof commitment false drawnChal =
          Except.ok ⟨Sum.inr commitment.2, drawnChal⟩) ∧
      andVerifierSendChallenge hashFn proof commitment true drawnChal =
        Except.ok ⟨Sum.inl commitment, drawnChal⟩ := by
  refine ⟨?_, ?_, rfl⟩
  · by_cases heq : commitment.1 = prehash_statement hashFn proof
    · constructor
      · intro habs
        simp [andVerifierSendChallenge, check_statement, heq] at habs
      · intro hne
        exact absurd heq hne
    · constructor
      · intro _
        exact heq
      · intro _
        simp [andVerifierSendChallenge, check_statement, heq]
  · intro heq
    simp [andVerifierSendChallenge, check_statement, heq]

/-- Witness for C7: a digest oracle mapping everything to 0; the received
digest 1 mismatches and raises, the received digest 0 matches and stores
the commitment. -/
theorem andVerifier_send_challenge_spec_witness :
    ((1 : Nat), (42 : Nat)).1 ≠
        prehash_statement (fun _ => 0) (ProofTree.leaf 0 []) ∧
      andVerifierSendChallenge (fun _ => 0) (ProofTree.leaf 0 [])
          ((1 : Nat), (42 : Nat)) false 9 =
        Except.error "Proof statements mismatch, impossible to verify" ∧
      andVerifierSendChallenge (fun _ => 0) (ProofTree.leaf 0 [])
          ((0 : Nat), (42 : Nat)) false 9 =
        Except.ok ⟨Sum.inr 42, 9⟩ := by
  have hne : ((1 : Nat), (42 : Nat)).1 ≠
      prehash_statement (fun _ => 0) (ProofTree.leaf 0 []) := by decide
  refine ⟨hne, ?_, ?_⟩
  · exact (andVerifier_send_challenge_spec (fun _ => 0) (ProofTree.leaf 0 [])
      ((1 : Nat), (42 : Nat)) 9).1.mpr hne
  · exact (andVerifier_send_challenge_spec (fun _ => 0) (ProofTree.leaf 0 [])
      ((0 : Nat), (42 : Nat)) 9).2.1 (by decide)

/-! ### Mutation of expression nodes by the public operations (C9) -/

/-- State stored on an OR expression node: the children, the simulation
flag, the recorded secret values, the chosen index written by
`get_prover` and the subchallenges written by `recompute_commitment`. -/
structure OrNodeState (V : Type) where
  subproofs : List ProofTree
  simulation : Bool
  secret_values : Dict V
  chosen_idx : Option Nat
  or_challenges : Option (List Int)

/-- Translation of `Proof.set_simulate` (CompositionProofs.py:60-61). -/
def proofSetSimulate {V : Type} (s : OrNodeState V) : OrNodeState V :=
  { s with simulation := true }

/-- State effect on the expression node of `Proof.simulate`
(CompositionProofs.py:77-84): it calls `set_simulate` on itself before
building the transcript, which itself touches no node field. -/
def simulateNodeEffect {V : Type} (s : OrNodeState V) : OrNodeState V :=
  proofSetSimulate s

/-- State effect on the expression node of `OrProof.get_prover`
(CompositionProofs.py:231-266): `self.secret_values.update(secrets_dict)`
always runs; past the guard the loop writes `self.chosen_idx` (the last
drawn index, supplied by the draw oracle). -/
def orGetProverNodeEffect {V : Type} (s : OrNodeState V)
    (secrets_dict : Dict V) (lastDrawn : Nat) : OrNodeState V :=
  let sv := s.secret_values ++ secrets_dict
  if s.simulation || sv.isEmpty then { s with secret_values := sv }
  else { s with secret_values := sv, chosen_idx := some lastDrawn }

/-- State effect on the expression node of `OrProof.recompute_commitment`
(CompositionProofs.py:209-229), reached from `verify`: it stores the
received subchallenges in `self.or_challenges`. -/
def orRecomputeNodeEffect {V : Type} (s : OrNodeState V)
    (chals : List Int) : OrNodeState V :=
  { s with or_challenges := some chals }

/-- C9 counterexample.  Expression nodes are not immutable: `simulate`
calls `set_simulate`, which flips the node's own simulation flag, so a
node with the flag clear is changed by running `simulate` on it. -/
theorem expression_immutability_counterexample :
    (simulateNodeEffect
        (⟨[], false, ([] : Dict Nat), none, none⟩ : OrNodeState Nat)).simulation ≠
      (⟨[], false, ([] : Dict Nat), none, none⟩ : OrNodeState Nat).simulation := by
  decide

/-- C9 amended.  The structure of an expression node — its subproofs —
is never changed by `simulate`, `get_prover` or OR verification, and
`get_prover` and verification preserve the simulation flag; but the
operations do write per-run data onto the node: `simulate` sets the
simulation flag, `get_prover` merges the supplied secrets into the
recorded secret values and records the chosen OR index, and OR
verification stores the received subchallenges.  Commitments and
randomizers live only on prover and verifier objects. -/
theorem expression_immutability_amended {V : Type} (s : OrNodeState V)
    (d : Dict V) (lastDrawn : Nat) (chals : List Int) :
    (simulateNodeEffect s).subproofs = s.subproofs ∧
      (orGetProverNodeEffect s d lastDrawn).subproofs = s.subproofs ∧
      (orRecomputeNodeEffect s chals).subproofs = s.subproofs ∧
      (orGetProverNodeEffect s d lastDrawn).simulation = s.simulation ∧
      (orRecomputeNodeEffect s chals).simulation = s.simulation ∧
      (simulateNodeEffect s).secret_values = s.secret_values ∧
      (orRecomputeNodeEffect s chals).secret_values = s.secret_values := by
  refine ⟨rfl, ?_, rfl, ?_, rfl, rfl, rfl⟩
  · simp only [orGetProverNodeEffect]
    split <;> rfl
  · simp only [orGetProverNodeEffect]
    split <;> rfl

end ZkComp
